import Mathlib

/-!
Verification development for the Fastify memo application.

The definitions below are a shallow embedding of the data-access layer of
the improved server source (the file with loadData, saveData, clearCache,
loadDataWithCache, getNextId, initializeLastId, memoBodySchema and the four
REST handlers).  Pure computations are translated as Lean functions; the
mutable module-level state (the data file, the backup file, the memo cache,
the cache timestamp and the id counter lastId) is carried explicitly in a
state record, and each HTTP handler becomes a state-passing function that
also returns its HTTP outcome.  The wall clock and the success of the two
file-system writes (backup copy and data write) are inputs.

Two levels are embedded.  The store level works on a JSON value tree and
models loadData together with the content that saveData serializes, so the
serialization round trip can be stated.  The service level works on decoded
memo collections, which is the view every handler takes of the parsed file.
-/

/-- JSON value tree, the result of JSON.parse.  Numbers are modelled as
integers, which covers every number the memo format produces (memo ids). -/
inductive Json where
  | null : Json
  | bool (b : Bool) : Json
  | num (n : Int) : Json
  | str (s : String) : Json
  | arr (elems : List Json) : Json
  | obj (fields : List (String × Json)) : Json

/-- A memo record: the five fields written to the data file. -/
structure Memo where
  id : Int
  title : String
  content : String
  createdAt : String
  updatedAt : String
deriving DecidableEq, Repr

/-- State of the data file as the store sees it: absent, present but not
parseable as JSON, or present with a parsed JSON value. -/
inductive FileContent where
  | missing : FileContent
  | invalidJson : FileContent
  | json (v : Json) : FileContent

/-- Failures of loadData: corruptStore is the SyntaxError branch (line 98,
the data-file-is-broken message), invalidFormat is the thrown error of the
Array.isArray check (line 89), rethrown by the final catch branch. -/
inductive LoadError where
  | corruptStore : LoadError
  | invalidFormat : LoadError
deriving DecidableEq

/-- Embedding of loadData (source lines 79 to 108): a missing file (ENOENT)
yields the empty array, unparseable JSON yields the corrupt-store error, a
parsed value that is not an array yields the invalid-format error, and a
parsed array is returned as is, with no inspection of its elements. -/
def loadData : FileContent → Except LoadError (List Json)
  | .missing => .ok []
  | .invalidJson => .error .corruptStore
  | .json v =>
    match v with
    | .arr elems => .ok elems
    | _ => .error .invalidFormat

/-- Serialization of one memo as saveData writes it: an object with exactly
the five memo fields in insertion order (source lines 728 to 734 build the
object, line 146 stringifies it). -/
def memoToJson (m : Memo) : Json :=
  .obj [("id", .num m.id), ("title", .str m.title), ("content", .str m.content),
        ("createdAt", .str m.createdAt), ("updatedAt", .str m.updatedAt)]

/-- Reading a memo back from a parsed JSON value: succeeds exactly on the
five-field shape that memoToJson produces. -/
def memoOfJson : Json → Option Memo
  | .obj [("id", .num i), ("title", .str t), ("content", .str c),
          ("createdAt", .str ca), ("updatedAt", .str ua)] =>
    some { id := i, title := t, content := c, createdAt := ca, updatedAt := ua }
  | _ => none

/-- Modelled from the spec: the spec describes the persisted layout as a
JSON array whose elements are Memo-shaped records, each an object with
exactly the five memo fields.  The source never checks this shape, so this
predicate is the comparison definition for the claim about load failures. -/
def isMemoShaped (v : Json) : Bool :=
  match v with
  | .obj [("id", .num _), ("title", .str _), ("content", .str _),
          ("createdAt", .str _), ("updatedAt", .str _)] => true
  | _ => false

/-- Whether a parsed JSON value is an array. -/
def Json.isArr : Json → Bool
  | .arr _ => true
  | _ => false

/-- The file content that saveData writes for a collection (line 146,
JSON.stringify of the memo array with two-space indentation): a JSON array
of the serialized memos.  Indentation does not affect the parsed value. -/
def writtenContent (data : List Memo) : FileContent :=
  .json (.arr (data.map memoToJson))

/-- Deserialization of a parsed array back into a memo collection, element
by element; fails if any element is not Memo-shaped. -/
def decodeMemos : List Json → Option (List Memo)
  | [] => some []
  | v :: vs =>
    match memoOfJson v, decodeMemos vs with
    | some m, some ms => some (m :: ms)
    | _, _ => none

/-- Configuration surface of the data layer (source lines 32 to 39 and the
BACKUP_ENABLED test on line 136). -/
structure Config where
  cacheEnabled : Bool
  cacheDuration : Nat
  backupEnabled : Bool

/-- Mutable module-level state of the server process, carried explicitly:
the decoded content of the data file (a missing file behaves as the empty
collection, exactly as loadData returns), the decoded content of the backup
file, memosCache, cacheTimestamp and lastId. -/
structure ServState where
  file : List Memo
  backup : Option (List Memo)
  cache : Option (List Memo)
  cacheTime : Option Nat
  lastId : Int

/-- Embedding of clearCache (source lines 69 to 72). -/
def clearCache (s : ServState) : ServState :=
  { s with cache := none, cacheTime := none }

/-- Embedding of loadDataWithCache (source lines 111 to 130): with caching
disabled it always reads the file; otherwise a snapshot younger than the
configured duration is returned, and on a miss the file is read and stored
with a fresh timestamp.  Timestamps are naturals, so the age check uses
truncated subtraction, which agrees with the source for a non-decreasing
clock. -/
def loadDataWithCache (cfg : Config) (now : Nat) (s : ServState) :
    List Memo × ServState :=
  if cfg.cacheEnabled = false then (s.file, s)
  else
    match s.cache, s.cacheTime with
    | some c, some t =>
      if now - t < cfg.cacheDuration then (c, s)
      else (s.file, { s with cache := some s.file, cacheTime := some now })
    | _, _ => (s.file, { s with cache := some s.file, cacheTime := some now })

/-- Write-side failure of saveData (the thrown save-failed error, line
154). -/
inductive SaveErr where
  | storeWriteFailed : SaveErr
deriving DecidableEq

/-- Embedding of saveData (source lines 133 to 156).  When backups are
enabled the current file is first copied to the backup path; a failing copy
(backupOk = false) only logs and changes nothing.  Then the new data is
written; a failing write throws and reaches neither the file update nor
clearCache, while a successful write replaces the file and clears the
cache. -/
def saveData (cfg : Config) (backupOk writeOk : Bool) (s : ServState)
    (data : List Memo) : ServState × Option SaveErr :=
  let s1 := if cfg.backupEnabled && backupOk then { s with backup := some s.file } else s
  if writeOk then (clearCache { s1 with file := data }, none)
  else (s1, some .storeWriteFailed)

/-- Embedding of getNextId (source lines 171 to 173): pre-increment of
lastId, returning the incremented value. -/
def getNextId (s : ServState) : Int × ServState :=
  (s.lastId + 1, { s with lastId := s.lastId + 1 })

/-- Embedding of initializeLastId (source lines 164 to 169): the maximum id
of the loaded collection, or 0 when it is empty. -/
def initializeLastId (memos : List Memo) : Int :=
  match memos with
  | [] => 0
  | m :: ms => ms.foldl (fun a x => max a x.id) m.id

/-- Title constraint of memoBodySchema (source lines 184 to 189): a string
of length between 1 and 200 matching the pattern that forbids the angle
bracket characters. -/
def titleValid (t : String) : Bool :=
  decide (1 ≤ t.length) && decide (t.length ≤ 200) &&
    t.data.all (fun c => !(c == '<' || c == '>'))

/-- Content constraint of memoBodySchema (source lines 190 to 194): a
string of length between 1 and 5000. -/
def contentValid (c : String) : Bool :=
  decide (1 ≤ c.length) && decide (c.length ≤ 5000)

/-- Body acceptance of memoBodySchema (source lines 180 to 197), applied by
the framework before the create and update handlers run. -/
def memoBodyValid (t c : String) : Bool :=
  titleValid t && contentValid c

/-- Removal of leading whitespace characters from a character list. -/
def dropWhileWs : List Char → List Char
  | [] => []
  | c :: cs => if c.isWhitespace then dropWhileWs cs else c :: cs

/-- Embedding of the JavaScript string trim method used by the handlers on
title and content: leading and trailing whitespace removed. -/
def jsTrim (s : String) : String :=
  ⟨(dropWhileWs (dropWhileWs s.data).reverse).reverse⟩

/-- HTTP outcomes of the API handlers: 400 on schema violation, 404 on an
unknown id, 500 on a failing write. -/
inductive ApiError where
  | validationFailed : ApiError
  | notFound : ApiError
  | storeWriteFailed : ApiError
deriving DecidableEq

/-- Removal of the first list element satisfying p, returning it with the
remaining list: the findIndex plus splice pair of the delete handler
(source lines 785 and 792). -/
def removeFirst (p : Memo → Bool) : List Memo → Option (Memo × List Memo)
  | [] => none
  | m :: ms =>
    if p m then some (m, ms)
    else
      match removeFirst p ms with
      | none => none
      | some (d, rest) => some (d, m :: rest)

/-- In-place mutation of the first list element satisfying p, returning the
mutated element with the resulting list: the findIndex plus field
assignments of the update handler (source lines 757 and 764 to 766). -/
def updateFirst (p : Memo → Bool) (f : Memo → Memo) : List Memo → Option (Memo × List Memo)
  | [] => none
  | m :: ms =>
    if p m then some (f m, f m :: ms)
    else
      match updateFirst p f ms with
      | none => none
      | some (u, rest) => some (u, m :: rest)

/-- Embedding of the POST /api/memos handler (source lines 716 to 743).
The schema check happens first; then the collection is loaded fresh, an id
is allocated (advancing lastId even if the later save fails), the new memo
is built from the trimmed inputs with both timestamps equal to now, and the
extended collection is saved. -/
def postMemos (cfg : Config) (backupOk writeOk : Bool) (title content now : String)
    (s : ServState) : ServState × Except ApiError Memo :=
  if memoBodyValid title content = false then (s, .error .validationFailed)
  else
    let memos := s.file
    let r := getNextId s
    let newMemo : Memo :=
      { id := r.1, title := jsTrim title, content := jsTrim content,
        createdAt := now, updatedAt := now }
    match saveData cfg backupOk writeOk r.2 (memos ++ [newMemo]) with
    | (s2, none) => (s2, .ok newMemo)
    | (s2, some _) => (s2, .error .storeWriteFailed)

/-- Embedding of the PUT /api/memos/:id handler (source lines 746 to 774).
The schema check happens first; an id without a matching memo answers 404
without saving; otherwise the matched memo gets the trimmed title, the
trimmed content and a fresh updatedAt, createdAt and id untouched, and the
collection is saved. -/
def putMemosId (cfg : Config) (backupOk writeOk : Bool) (id : Int)
    (title content now : String) (s : ServState) : ServState × Except ApiError Memo :=
  if memoBodyValid title content = false then (s, .error .validationFailed)
  else
    match updateFirst (fun m => m.id == id)
        (fun m => { m with title := jsTrim title, content := jsTrim content, updatedAt := now })
        s.file with
    | none => (s, .error .notFound)
    | some (u, memos2) =>
      match saveData cfg backupOk writeOk s memos2 with
      | (s2, none) => (s2, .ok u)
      | (s2, some _) => (s2, .error .storeWriteFailed)

/-- Embedding of the DELETE /api/memos/:id handler (source lines 777 to
804).  An id without a matching memo answers 404 without saving; otherwise
the memo is spliced out and the reduced collection saved; after a
successful save only, lastId is decremented when the deleted id equals it. -/
def deleteMemosId (cfg : Config) (backupOk writeOk : Bool) (id : Int)
    (s : ServState) : ServState × Except ApiError Memo :=
  match removeFirst (fun m => m.id == id) s.file with
  | none => (s, .error .notFound)
  | some (d, memos2) =>
    match saveData cfg backupOk writeOk s memos2 with
    | (s2, none) =>
      if d.id == s2.lastId then ({ s2 with lastId := s2.lastId - 1 }, .ok d)
      else (s2, .ok d)
    | (s2, some _) => (s2, .error .storeWriteFailed)

/-- Embedding of the GET /api/memos handler (source lines 706 to 713): the
cached read, returned as is. -/
def getMemos (cfg : Config) (now : Nat) (s : ServState) : List Memo × ServState :=
  loadDataWithCache cfg now s

/-- One client-visible operation of the API surface, with its environment
inputs (timestamps and file-system outcomes). -/
inductive Op where
  | opCreate (title content now : String) (backupOk writeOk : Bool) : Op
  | opUpdate (id : Int) (title content now : String) (backupOk writeOk : Bool) : Op
  | opDelete (id : Int) (backupOk writeOk : Bool) : Op
  | opList (now : Nat) : Op

/-- State transition of one operation. -/
def step (cfg : Config) (s : ServState) : Op → ServState
  | .opCreate t c now bOk wOk => (postMemos cfg bOk wOk t c now s).1
  | .opUpdate id t c now bOk wOk => (putMemosId cfg bOk wOk id t c now s).1
  | .opDelete id bOk wOk => (deleteMemosId cfg bOk wOk id s).1
  | .opList now => (loadDataWithCache cfg now s).2

/-- State after a sequence of operations. -/
def execOps (cfg : Config) : ServState → List Op → ServState
  | s, [] => s
  | s, op :: ops => execOps cfg (step cfg s op) ops

/-- Ids handed out by getNextId along a trace: every create that passes the
schema allocates, whether or not its save then succeeds. -/
def allocIds (cfg : Config) : ServState → List Op → List Int
  | _, [] => []
  | s, op :: ops =>
    match op with
    | .opCreate t c _ _ _ =>
      if memoBodyValid t c then (s.lastId + 1) :: allocIds cfg (step cfg s op) ops
      else allocIds cfg (step cfg s op) ops
    | _ => allocIds cfg (step cfg s op) ops

/-- Memos returned with status 201 by the creates of a trace. -/
def createdMemos (cfg : Config) : ServState → List Op → List Memo
  | _, [] => []
  | s, op :: ops =>
    match op with
    | .opCreate t c now bOk wOk =>
      match postMemos cfg bOk wOk t c now s with
      | (s2, .ok m) => m :: createdMemos cfg s2 ops
      | (s2, .error _) => createdMemos cfg s2 ops
    | _ => createdMemos cfg (step cfg s op) ops

/-- Data-layer invariant, carried through every operation: the stored ids
are pairwise distinct and bounded by lastId, and every banned id (an id
removed by a delete while distinct from the high-water mark) is bounded by
lastId and absent from the stored collection. -/
def inv (banned : List Int) (s : ServState) : Prop :=
  (s.file.map Memo.id).Nodup ∧
  (∀ m ∈ s.file, m.id ≤ s.lastId) ∧
  (∀ d ∈ banned, d ≤ s.lastId ∧ d ∉ s.file.map Memo.id)

/-- Ids that an operation bans from ever being allocated again: the id
removed by a successful delete when it differs from the current high-water
mark. -/
def stepBanned (s : ServState) : Op → List Int
  | .opDelete id _ wOk =>
    (match removeFirst (fun m => m.id == id) s.file with
     | some (d, _) => if wOk && !(d.id == s.lastId) then [d.id] else []
     | none => [])
  | _ => []

/-- Whether an operation is a successful delete of the memo currently
holding the high-water-mark id. -/
def isMarkDelete (s : ServState) : Op → Bool
  | .opDelete id _ wOk =>
    (match removeFirst (fun m => m.id == id) s.file with
     | some (d, _) => wOk && d.id == s.lastId
     | none => false)
  | _ => false

/-- A trace with no successful delete of the memo holding the high-water
mark. -/
def noMarkDeletes (cfg : Config) : ServState → List Op → Prop
  | _, [] => True
  | s, op :: ops => isMarkDelete s op = false ∧ noMarkDeletes cfg (step cfg s op) ops

/-- Fresh process state over a given decoded data file, after the startup
call of initializeLastId (source lines 839 to 848). -/
def initState (memos : List Memo) : ServState :=
  { file := memos, backup := none, cache := none, cacheTime := none,
    lastId := initializeLastId memos }

/-- Whether an operation is a create request. -/
def Op.isCreate : Op → Bool
  | .opCreate _ _ _ _ _ => true
  | _ => false

/-- A 201-character title, the length-boundary probe of the validation
property. -/
def title201 : String :=
  ⟨List.replicate 201 'a'⟩

/-- The default configuration (source lines 32 to 39 with an empty
environment): caching on with a five-second duration, backups off. -/
def cfgDefault : Config :=
  { cacheEnabled := true, cacheDuration := 5000, backupEnabled := false }


/-! Basic facts about the list helpers. -/

/-- Splitting view of a successful removeFirst: the list decomposes at the
first match, which is returned, and the remainder is the list without it. -/
theorem removeFirst_eq_some {p : Memo → Bool} {l l2 : List Memo} {d : Memo}
    (h : removeFirst p l = some (d, l2)) :
    ∃ l₁ lr, l = l₁ ++ d :: lr ∧ l2 = l₁ ++ lr ∧ (∀ x ∈ l₁, p x = false) ∧ p d = true := by
  induction l generalizing l2 with
  | nil => simp [removeFirst] at h
  | cons m ms ih =>
    by_cases hp : p m
    · rw [removeFirst, if_pos hp] at h
      obtain ⟨rfl, rfl⟩ := Prod.mk.injEq .. ▸ Option.some.injEq .. ▸ h
      exact ⟨[], ms, rfl, rfl, by simp, hp⟩
    · rw [removeFirst, if_neg hp] at h
      cases hr : removeFirst p ms with
      | none => rw [hr] at h; exact absurd h (by simp)
      | some pr =>
        rw [hr] at h
        obtain ⟨d0, rest⟩ := pr
        simp only [Option.some.injEq, Prod.mk.injEq] at h
        obtain ⟨rfl, rfl⟩ := h
        obtain ⟨l₁, lr, rfl, rfl, hl₁, hd⟩ := ih hr
        exact ⟨m :: l₁, lr, rfl, rfl, by
          intro x hx
          rcases List.mem_cons.mp hx with rfl | hx
          · exact eq_false_of_ne_true hp
          · exact hl₁ x hx, hd⟩

/-- Splitting view of a successful updateFirst: the list decomposes at the
first match, the returned element is the mutated match, and the resulting
list carries the mutation in place. -/
theorem updateFirst_eq_some {p : Memo → Bool} {f : Memo → Memo} {l l2 : List Memo} {u : Memo}
    (h : updateFirst p f l = some (u, l2)) :
    ∃ l₁ m lr, l = l₁ ++ m :: lr ∧ l2 = l₁ ++ f m :: lr ∧ u = f m ∧
      (∀ x ∈ l₁, p x = false) ∧ p m = true := by
  induction l generalizing l2 with
  | nil => simp [updateFirst] at h
  | cons m ms ih =>
    by_cases hp : p m
    · rw [updateFirst, if_pos hp] at h
      simp only [Option.some.injEq, Prod.mk.injEq] at h
      obtain ⟨rfl, rfl⟩ := h
      exact ⟨[], m, ms, rfl, rfl, rfl, by simp, hp⟩
    · rw [updateFirst, if_neg hp] at h
      cases hr : updateFirst p f ms with
      | none => rw [hr] at h; exact absurd h (by simp)
      | some pr =>
        rw [hr] at h
        obtain ⟨u0, rest⟩ := pr
        simp only [Option.some.injEq, Prod.mk.injEq] at h
        obtain ⟨rfl, rfl⟩ := h
        obtain ⟨l₁, m0, lr, rfl, rfl, hu, hl₁, hm⟩ := ih hr
        exact ⟨m :: l₁, m0, lr, rfl, rfl, hu, by
          intro x hx
          rcases List.mem_cons.mp hx with rfl | hx
          · exact eq_false_of_ne_true hp
          · exact hl₁ x hx, hm⟩

/-! Characterizations of the state functions, one per control-flow branch. -/

/-- A successful write replaces the file, clears the cache and keeps
lastId; the backup is refreshed exactly when backups are enabled and the
copy succeeded. -/
theorem saveData_write_ok (cfg : Config) (bOk : Bool) (s : ServState) (data : List Memo) :
    saveData cfg bOk true s data =
      ({ file := data,
         backup := if cfg.backupEnabled && bOk then some s.file else s.backup,
         cache := none, cacheTime := none, lastId := s.lastId }, none) := by
  unfold saveData clearCache
  cases h : cfg.backupEnabled && bOk <;> simp [h]

/-- A failing write leaves file, cache and lastId untouched and reports the
write failure; only the backup may have been refreshed before the failure. -/
theorem saveData_write_fail (cfg : Config) (bOk : Bool) (s : ServState) (data : List Memo) :
    saveData cfg bOk false s data =
      (if cfg.backupEnabled && bOk then { s with backup := some s.file } else s,
       some .storeWriteFailed) := by
  unfold saveData
  cases h : cfg.backupEnabled && bOk <;> simp [h]

/-- A schema-invalid body makes the create handler answer 400 with the
state untouched. -/
theorem postMemos_invalid (cfg : Config) (bOk wOk : Bool) (t c now : String)
    (s : ServState) (hv : memoBodyValid t c = false) :
    postMemos cfg bOk wOk t c now s = (s, .error .validationFailed) := by
  simp [postMemos, hv]

/-- A schema-valid create whose write succeeds appends the new memo built
from the trimmed inputs, advances lastId, clears the cache and returns the
memo. -/
theorem postMemos_ok_eq (cfg : Config) (bOk : Bool) (t c now : String)
    (s : ServState) (hv : memoBodyValid t c = true) :
    postMemos cfg bOk true t c now s =
      ({ file := s.file ++ [⟨s.lastId + 1, jsTrim t, jsTrim c, now, now⟩],
         backup := if cfg.backupEnabled && bOk then some s.file else s.backup,
         cache := none, cacheTime := none, lastId := s.lastId + 1 },
       .ok ⟨s.lastId + 1, jsTrim t, jsTrim c, now, now⟩) := by
  unfold postMemos getNextId
  rw [hv]
  simp only [Bool.true_eq_false, if_false, saveData_write_ok]

/-- A schema-valid create whose write fails answers 500; lastId has already
been advanced, and file and cache are untouched. -/
theorem postMemos_write_fail (cfg : Config) (bOk : Bool) (t c now : String)
    (s : ServState) (hv : memoBodyValid t c = true) :
    postMemos cfg bOk false t c now s =
      (if cfg.backupEnabled && bOk then
         { s with lastId := s.lastId + 1, backup := some s.file }
       else { s with lastId := s.lastId + 1 },
       .error .storeWriteFailed) := by
  unfold postMemos getNextId
  rw [hv]
  simp only [Bool.true_eq_false, if_false, saveData_write_fail]

/-- A schema-invalid body makes the update handler answer 400 with the
state untouched. -/
theorem putMemosId_invalid (cfg : Config) (bOk wOk : Bool) (id : Int) (t c now : String)
    (s : ServState) (hv : memoBodyValid t c = false) :
    putMemosId cfg bOk wOk id t c now s = (s, .error .validationFailed) := by
  simp [putMemosId, hv]

/-- An update with no matching id answers 404 with the state untouched. -/
theorem putMemosId_notFound (cfg : Config) (bOk wOk : Bool) (id : Int) (t c now : String)
    (s : ServState) (hv : memoBodyValid t c = true)
    (hf : updateFirst (fun m => m.id == id)
      (fun m => { m with title := jsTrim t, content := jsTrim c, updatedAt := now })
      s.file = none) :
    putMemosId cfg bOk wOk id t c now s = (s, .error .notFound) := by
  unfold putMemosId
  rw [hv, hf]
  simp

/-- A schema-valid update on a present id whose write succeeds stores the
mutated collection, keeps lastId, clears the cache and returns the mutated
memo. -/
theorem putMemosId_ok_eq (cfg : Config) (bOk : Bool) (id : Int) (t c now : String)
    (s : ServState) (u : Memo) (l2 : List Memo) (hv : memoBodyValid t c = true)
    (hf : updateFirst (fun m => m.id == id)
      (fun m => { m with title := jsTrim t, content := jsTrim c, updatedAt := now })
      s.file = some (u, l2)) :
    putMemosId cfg bOk true id t c now s =
      ({ file := l2,
         backup := if cfg.backupEnabled && bOk then some s.file else s.backup,
         cache := none, cacheTime := none, lastId := s.lastId }, .ok u) := by
  unfold putMemosId
  rw [hv, hf]
  simp only [Bool.true_eq_false, if_false, saveData_write_ok]

/-- A schema-valid update on a present id whose write fails answers 500
with file, cache and lastId untouched. -/
theorem putMemosId_write_fail (cfg : Config) (bOk : Bool) (id : Int) (t c now : String)
    (s : ServState) (u : Memo) (l2 : List Memo) (hv : memoBodyValid t c = true)
    (hf : updateFirst (fun m => m.id == id)
      (fun m => { m with title := jsTrim t, content := jsTrim c, updatedAt := now })
      s.file = some (u, l2)) :
    putMemosId cfg bOk false id t c now s =
      (if cfg.backupEnabled && bOk then { s with backup := some s.file } else s,
       .error .storeWriteFailed) := by
  unfold putMemosId
  rw [hv, hf]
  simp only [Bool.true_eq_false, if_false, saveData_write_fail]

/-- A delete with no matching id answers 404 with the state untouched. -/
theorem deleteMemosId_notFound (cfg : Config) (bOk wOk : Bool) (id : Int)
    (s : ServState) (hf : removeFirst (fun m => m.id == id) s.file = none) :
    deleteMemosId cfg bOk wOk id s = (s, .error .notFound) := by
  unfold deleteMemosId
  rw [hf]

/-- A delete of a present id whose write succeeds stores the reduced
collection, clears the cache and returns the removed memo; lastId drops by
one exactly when the removed id equals it. -/
theorem deleteMemosId_ok_eq (cfg : Config) (bOk : Bool) (id : Int)
    (s : ServState) (d : Memo) (l2 : List Memo)
    (hf : removeFirst (fun m => m.id == id) s.file = some (d, l2)) :
    deleteMemosId cfg bOk true id s =
      ({ file := l2,
         backup := if cfg.backupEnabled && bOk then some s.file else s.backup,
         cache := none, cacheTime := none,
         lastId := if d.id = s.lastId then s.lastId - 1 else s.lastId }, .ok d) := by
  unfold deleteMemosId
  rw [hf]
  simp only [saveData_write_ok]
  by_cases h : d.id = s.lastId <;> simp [h]

/-- A delete of a present id whose write fails answers 500 with file, cache
and lastId untouched, and in particular without the high-water-mark
adjustment. -/
theorem deleteMemosId_write_fail (cfg : Config) (bOk : Bool) (id : Int)
    (s : ServState) (d : Memo) (l2 : List Memo)
    (hf : removeFirst (fun m => m.id == id) s.file = some (d, l2)) :
    deleteMemosId cfg bOk false id s =
      (if cfg.backupEnabled && bOk then { s with backup := some s.file } else s,
       .error .storeWriteFailed) := by
  unfold deleteMemosId
  rw [hf]
  simp only [saveData_write_fail]

/-- The cached read either leaves the state alone (cache disabled, or a
hit) or refreshes the snapshot from the file; it never touches the file,
the backup or lastId. -/
theorem loadDataWithCache_state (cfg : Config) (now : Nat) (s : ServState) :
    (loadDataWithCache cfg now s).2 = s ∨
      (loadDataWithCache cfg now s).2 = { s with cache := some s.file, cacheTime := some now } := by
  unfold loadDataWithCache
  by_cases hc : cfg.cacheEnabled = false
  · simp [hc]
  · simp only [hc, if_false]
    cases s.cache <;> cases s.cacheTime <;> simp
    split <;> simp

/-- When no snapshot is cached, the cached read returns the file content. -/
theorem loadDataWithCache_fst_of_none (cfg : Config) (now : Nat) (s : ServState)
    (h : s.cache = none) : (loadDataWithCache cfg now s).1 = s.file := by
  unfold loadDataWithCache
  by_cases hc : cfg.cacheEnabled = false <;> simp [hc, h]

/-- On a cache hit inside the configured duration, the cached read returns
the snapshot without touching the file. -/
theorem loadDataWithCache_hit (cfg : Config) (now t : Nat) (s : ServState)
    (c : List Memo) (hc : s.cache = some c) (ht : s.cacheTime = some t)
    (he : cfg.cacheEnabled = true) (hd : now - t < cfg.cacheDuration) :
    (loadDataWithCache cfg now s).1 = c := by
  unfold loadDataWithCache
  simp [he, hc, ht, hd]

/-- The cached read never changes the file. -/
theorem loadDataWithCache_file (cfg : Config) (now : Nat) (s : ServState) :
    (loadDataWithCache cfg now s).2.file = s.file := by
  rcases loadDataWithCache_state cfg now s with h | h <;> rw [h]

/-- The cached read never changes lastId. -/
theorem loadDataWithCache_lastId (cfg : Config) (now : Nat) (s : ServState) :
    (loadDataWithCache cfg now s).2.lastId = s.lastId := by
  rcases loadDataWithCache_state cfg now s with h | h <;> rw [h]

/-- The invariant only reads the file and lastId, and tolerates a larger
lastId. -/
theorem inv_file_lastId_le {B : List Int} {s s2 : ServState}
    (hf : s2.file = s.file) (hl : s.lastId <= s2.lastId) (h : inv B s) : inv B s2 := by
  obtain ⟨h1, h2, h3⟩ := h
  refine ⟨?_, ?_, ?_⟩
  · rw [hf]; exact h1
  · intro m hm
    rw [hf] at hm
    have := h2 m hm
    omega
  · intro d hd
    obtain ⟨hd1, hd2⟩ := h3 d hd
    refine ⟨by omega, ?_⟩
    rw [hf]
    exact hd2

/-- Membership transfer for the mapped ids of a decomposed list. -/
theorem mem_map_id_of_append {l₁ lr : List Memo} {x : Int}
    (h : x ∈ (l₁ ++ lr).map Memo.id) {d : Memo} :
    x ∈ (l₁ ++ d :: lr).map Memo.id := by
  simp only [List.map_append, List.map_cons, List.mem_append, List.mem_cons] at h ⊢
  rcases h with h | h
  · exact Or.inl h
  · exact Or.inr (Or.inr h)

/-- The invariant survives every operation, with the banned set extended by
the ids the operation retires. -/
theorem inv_step (cfg : Config) (s : ServState) (op : Op) (B : List Int)
    (h : inv B s) : inv (B ++ stepBanned s op) (step cfg s op) := by
  obtain ⟨hnd, hle, hban⟩ := h
  have hltmap : ∀ x ∈ s.file.map Memo.id, x ≤ s.lastId := by
    intro x hx
    obtain ⟨m, hm, rfl⟩ := List.mem_map.mp hx
    exact hle m hm
  cases op with
  | opList now =>
    simp only [stepBanned, List.append_nil]
    show inv B ((loadDataWithCache cfg now s).2)
    unfold inv
    rw [loadDataWithCache_file, loadDataWithCache_lastId]
    exact ⟨hnd, hle, hban⟩
  | opCreate t c now bOk wOk =>
    simp only [stepBanned, List.append_nil]
    by_cases hv : memoBodyValid t c = true
    · cases wOk with
      | true =>
        show inv B ((postMemos cfg bOk true t c now s).1)
        rw [postMemos_ok_eq cfg bOk t c now s hv]
        refine ⟨?_, ?_, ?_⟩
        · show ((s.file ++ [(⟨s.lastId + 1, jsTrim t, jsTrim c, now, now⟩ : Memo)]).map Memo.id).Nodup
          rw [List.map_append, List.nodup_append]
          refine ⟨hnd, by simp, ?_⟩
          intro a ha hb
          simp only [List.map_cons, List.map_nil, List.mem_singleton] at hb
          subst hb
          have := hltmap _ ha
          omega
        · intro m hm
          show m.id ≤ s.lastId + 1
          rcases List.mem_append.mp hm with hm | hm
          · have := hle m hm; omega
          · simp only [List.mem_singleton] at hm
            subst hm; rfl
        · intro d hd
          obtain ⟨hd1, hd2⟩ := hban d hd
          refine ⟨by show d ≤ s.lastId + 1; omega, ?_⟩
          show d ∉ (s.file ++ [(⟨s.lastId + 1, jsTrim t, jsTrim c, now, now⟩ : Memo)]).map Memo.id
          rw [List.map_append]
          intro hmem
          rcases List.mem_append.mp hmem with hmem | hmem
          · exact hd2 hmem
          · simp only [List.map_cons, List.map_nil, List.mem_singleton] at hmem
            omega
      | false =>
        show inv B ((postMemos cfg bOk false t c now s).1)
        rw [postMemos_write_fail cfg bOk t c now s hv]
        refine inv_file_lastId_le ?_ ?_ ⟨hnd, hle, hban⟩
        · cases hb : cfg.backupEnabled && bOk <;> simp [hb]
        · cases hb : cfg.backupEnabled && bOk <;> simp [hb]
    · have hv2 : memoBodyValid t c = false := eq_false_of_ne_true hv
      show inv B ((postMemos cfg bOk wOk t c now s).1)
      rw [postMemos_invalid cfg bOk wOk t c now s hv2]
      exact ⟨hnd, hle, hban⟩
  | opUpdate id t c now bOk wOk =>
    simp only [stepBanned, List.append_nil]
    by_cases hv : memoBodyValid t c = true
    · cases hf : updateFirst (fun m => m.id == id)
          (fun m => { m with title := jsTrim t, content := jsTrim c, updatedAt := now })
          s.file with
      | none =>
        show inv B ((putMemosId cfg bOk wOk id t c now s).1)
        rw [putMemosId_notFound cfg bOk wOk id t c now s hv hf]
        exact ⟨hnd, hle, hban⟩
      | some pr =>
        obtain ⟨u, l2⟩ := pr
        obtain ⟨l₁, m0, lr, hsf, hl2, hu, hl₁, hm0⟩ := updateFirst_eq_some hf
        have hmaps : l2.map Memo.id = s.file.map Memo.id := by
          rw [hsf, hl2]
          simp only [List.map_append, List.map_cons]
        cases wOk with
        | true =>
          show inv B ((putMemosId cfg bOk true id t c now s).1)
          rw [putMemosId_ok_eq cfg bOk id t c now s u l2 hv hf]
          refine ⟨?_, ?_, ?_⟩
          · show (l2.map Memo.id).Nodup
            rw [hmaps]; exact hnd
          · intro m hm
            show m.id ≤ s.lastId
            have : m.id ∈ l2.map Memo.id := List.mem_map_of_mem Memo.id hm
            rw [hmaps] at this
            exact hltmap _ this
          · intro d hd
            obtain ⟨hd1, hd2⟩ := hban d hd
            exact ⟨hd1, by show d ∉ l2.map Memo.id; rw [hmaps]; exact hd2⟩
        | false =>
          show inv B ((putMemosId cfg bOk false id t c now s).1)
          rw [putMemosId_write_fail cfg bOk id t c now s u l2 hv hf]
          refine inv_file_lastId_le ?_ ?_ ⟨hnd, hle, hban⟩
          · cases hb : cfg.backupEnabled && bOk <;> simp [hb]
          · cases hb : cfg.backupEnabled && bOk <;> simp [hb]
    · have hv2 : memoBodyValid t c = false := eq_false_of_ne_true hv
      show inv B ((putMemosId cfg bOk wOk id t c now s).1)
      rw [putMemosId_invalid cfg bOk wOk id t c now s hv2]
      exact ⟨hnd, hle, hban⟩
  | opDelete id bOk wOk =>
    cases hf : removeFirst (fun m => m.id == id) s.file with
    | none =>
      show inv (B ++ stepBanned s (.opDelete id bOk wOk)) ((deleteMemosId cfg bOk wOk id s).1)
      rw [deleteMemosId_notFound cfg bOk wOk id s hf]
      simp only [stepBanned, hf, List.append_nil]
      exact ⟨hnd, hle, hban⟩
    | some pr =>
      obtain ⟨d, l2⟩ := pr
      obtain ⟨l₁, lr, hsf, hl2, hl₁, hd⟩ := removeFirst_eq_some hf
      have hdm : d.id ∈ s.file.map Memo.id := by
        rw [hsf]
        simp
      have hdin : d ∈ s.file := by
        rw [hsf]; exact List.mem_append.mpr (Or.inr (List.mem_cons_self d lr))
      have hmid : s.file.map Memo.id = l₁.map Memo.id ++ d.id :: lr.map Memo.id := by
        rw [hsf]; simp only [List.map_append, List.map_cons]
      have hnd2 : (d.id :: (l₁.map Memo.id ++ lr.map Memo.id)).Nodup := by
        rw [← List.nodup_middle, ← hmid]; exact hnd
      have hdout : d.id ∉ (l₁ ++ lr).map Memo.id := by
        have := (List.nodup_cons.mp hnd2).1
        rw [List.map_append]; exact this
      have hndl2 : ((l₁ ++ lr).map Memo.id).Nodup := by
        have := (List.nodup_cons.mp hnd2).2
        rw [List.map_append]; exact this
      have hsub : ∀ x ∈ (l₁ ++ lr).map Memo.id, x ∈ s.file.map Memo.id := by
        intro x hx
        rw [hsf]
        exact mem_map_id_of_append hx
      cases wOk with
      | false =>
        show inv (B ++ stepBanned s (.opDelete id bOk false)) ((deleteMemosId cfg bOk false id s).1)
        rw [deleteMemosId_write_fail cfg bOk id s d l2 hf]
        have hsb : stepBanned s (.opDelete id bOk false) = [] := by
          simp [stepBanned, hf]
        rw [hsb, List.append_nil]
        refine inv_file_lastId_le ?_ ?_ ⟨hnd, hle, hban⟩
        · cases hb : cfg.backupEnabled && bOk <;> simp [hb]
        · cases hb : cfg.backupEnabled && bOk <;> simp [hb]
      | true =>
        show inv (B ++ stepBanned s (.opDelete id bOk true)) ((deleteMemosId cfg bOk true id s).1)
        rw [deleteMemosId_ok_eq cfg bOk id s d l2 hf]
        by_cases heq : d.id = s.lastId
        · have hsb : stepBanned s (.opDelete id bOk true) = [] := by
            simp [stepBanned, hf, heq]
          rw [hsb, List.append_nil, if_pos heq]
          refine ⟨?_, ?_, ?_⟩
          · show (l2.map Memo.id).Nodup
            rw [hl2]; exact hndl2
          · intro m hm
            show m.id ≤ s.lastId - 1
            rw [hl2] at hm
            have h1 : m.id ∈ (l₁ ++ lr).map Memo.id := List.mem_map_of_mem Memo.id hm
            have h2 : m.id ≤ s.lastId := hltmap _ (hsub _ h1)
            have h3 : m.id ≠ d.id := fun hcon => hdout (hcon ▸ h1)
            omega
          · intro b hb
            obtain ⟨hb1, hb2⟩ := hban b hb
            have hbne : b ≠ d.id := fun hcon => hb2 (hcon ▸ hdm)
            refine ⟨by show b ≤ s.lastId - 1; omega, ?_⟩
            show b ∉ l2.map Memo.id
            rw [hl2]
            intro hcon
            exact hb2 (hsub _ hcon)
        · have hsb : stepBanned s (.opDelete id bOk true) = [d.id] := by
            simp [stepBanned, hf, heq]
          rw [hsb, if_neg heq]
          refine ⟨?_, ?_, ?_⟩
          · show (l2.map Memo.id).Nodup
            rw [hl2]; exact hndl2
          · intro m hm
            show m.id ≤ s.lastId
            rw [hl2] at hm
            exact hltmap _ (hsub _ (List.mem_map_of_mem Memo.id hm))
          · intro b hb
            rcases List.mem_append.mp hb with hb | hb
            · obtain ⟨hb1, hb2⟩ := hban b hb
              refine ⟨hb1, ?_⟩
              show b ∉ l2.map Memo.id
              rw [hl2]
              intro hcon
              exact hb2 (hsub _ hcon)
            · simp only [List.mem_singleton] at hb
              subst hb
              refine ⟨hle d hdin, ?_⟩
              show d.id ∉ l2.map Memo.id
              rw [hl2]
              exact hdout

/-- A valid create advances lastId by one, whether or not the save then
succeeds. -/
theorem step_create_lastId (cfg : Config) (s : ServState) (t c now : String)
    (bOk wOk : Bool) (hv : memoBodyValid t c = true) :
    (step cfg s (.opCreate t c now bOk wOk)).lastId = s.lastId + 1 := by
  cases wOk with
  | true =>
    show ((postMemos cfg bOk true t c now s).1).lastId = s.lastId + 1
    rw [postMemos_ok_eq cfg bOk t c now s hv]
  | false =>
    show ((postMemos cfg bOk false t c now s).1).lastId = s.lastId + 1
    rw [postMemos_write_fail cfg bOk t c now s hv]
    cases hb : cfg.backupEnabled && bOk <;> simp [hb]

/-- Unless an operation is a successful delete of the memo holding the
high-water mark, lastId never decreases. -/
theorem step_lastId_mono (cfg : Config) (s : ServState) (op : Op)
    (h : isMarkDelete s op = false) : s.lastId ≤ (step cfg s op).lastId := by
  cases op with
  | opList now =>
    show s.lastId ≤ ((loadDataWithCache cfg now s).2).lastId
    rw [loadDataWithCache_lastId]
  | opCreate t c now bOk wOk =>
    by_cases hv : memoBodyValid t c = true
    · rw [step_create_lastId cfg s t c now bOk wOk hv]
      omega
    · have hv2 : memoBodyValid t c = false := eq_false_of_ne_true hv
      show s.lastId ≤ ((postMemos cfg bOk wOk t c now s).1).lastId
      rw [postMemos_invalid cfg bOk wOk t c now s hv2]
  | opUpdate id t c now bOk wOk =>
    show s.lastId ≤ ((putMemosId cfg bOk wOk id t c now s).1).lastId
    by_cases hv : memoBodyValid t c = true
    · cases hf : updateFirst (fun m => m.id == id)
          (fun m => { m with title := jsTrim t, content := jsTrim c, updatedAt := now })
          s.file with
      | none => rw [putMemosId_notFound cfg bOk wOk id t c now s hv hf]
      | some pr =>
        obtain ⟨u, l2⟩ := pr
        cases wOk with
        | true => rw [putMemosId_ok_eq cfg bOk id t c now s u l2 hv hf]
        | false =>
          rw [putMemosId_write_fail cfg bOk id t c now s u l2 hv hf]
          cases hb : cfg.backupEnabled && bOk <;> simp [hb]
    · have hv2 : memoBodyValid t c = false := eq_false_of_ne_true hv
      rw [putMemosId_invalid cfg bOk wOk id t c now s hv2]
  | opDelete id bOk wOk =>
    show s.lastId ≤ ((deleteMemosId cfg bOk wOk id s).1).lastId
    cases hf : removeFirst (fun m => m.id == id) s.file with
    | none => rw [deleteMemosId_notFound cfg bOk wOk id s hf]
    | some pr =>
      obtain ⟨d, l2⟩ := pr
      cases wOk with
      | false =>
        rw [deleteMemosId_write_fail cfg bOk id s d l2 hf]
        cases hb : cfg.backupEnabled && bOk <;> simp [hb]
      | true =>
        have heq : (d.id == s.lastId) = false := by
          have := h
          simp only [isMarkDelete, hf, Bool.true_and] at this
          exact this
        have hne : ¬d.id = s.lastId := by simpa using heq
        rw [deleteMemosId_ok_eq cfg bOk id s d l2 hf]
        simp [hne]

/-- The invariant carries through a whole trace: the banned set can only
grow. -/
theorem execOps_inv (cfg : Config) :
    ∀ (ops : List Op) (s : ServState) (B : List Int), inv B s →
      ∃ B2, (∀ x ∈ B, x ∈ B2) ∧ inv B2 (execOps cfg s ops) := by
  intro ops
  induction ops with
  | nil => exact fun s B h => ⟨B, fun x hx => hx, h⟩
  | cons op rest ih =>
    intro s B h
    obtain ⟨B2, hsub, h2⟩ := ih (step cfg s op) (B ++ stepBanned s op) (inv_step cfg s op B h)
    exact ⟨B2, fun x hx => hsub x (List.mem_append_left _ hx), h2⟩

/-- A banned id is never allocated by any later trace. -/
theorem banned_not_alloc (cfg : Config) (d : Int) :
    ∀ (ops : List Op) (s : ServState) (B : List Int), inv B s → d ∈ B →
      d ∉ allocIds cfg s ops := by
  intro ops
  induction ops with
  | nil => intro s B _ _; simp [allocIds]
  | cons op rest ih =>
    intro s B hinv hd
    have hstep := inv_step cfg s op B hinv
    have hd2 : d ∈ B ++ stepBanned s op := List.mem_append_left _ hd
    have hdle : d ≤ s.lastId := (hinv.2.2 d hd).1
    cases op with
    | opCreate t c now bOk wOk =>
      by_cases hv : memoBodyValid t c = true
      · intro hmem
        simp only [allocIds, hv, if_true] at hmem
        rcases List.mem_cons.mp hmem with rfl | hmem
        · omega
        · exact ih (step cfg s (.opCreate t c now bOk wOk)) _ hstep hd2 hmem
      · have hv2 : memoBodyValid t c = false := eq_false_of_ne_true hv
        intro hmem
        simp only [allocIds, hv2, Bool.false_eq_true, if_false] at hmem
        exact ih (step cfg s (.opCreate t c now bOk wOk)) _ hstep hd2 hmem
    | opUpdate id t c now bOk wOk =>
      intro hmem
      simp only [allocIds] at hmem
      exact ih (step cfg s (.opUpdate id t c now bOk wOk)) _ hstep hd2 hmem
    | opDelete id bOk wOk =>
      intro hmem
      simp only [allocIds] at hmem
      exact ih (step cfg s (.opDelete id bOk wOk)) _ hstep hd2 hmem
    | opList now =>
      intro hmem
      simp only [allocIds] at hmem
      exact ih (step cfg s (.opList now)) _ hstep hd2 hmem

/-- Along a trace without high-water-mark deletes, every allocated id
exceeds the starting value of lastId. -/
theorem allocIds_gt (cfg : Config) :
    ∀ (ops : List Op) (s : ServState), noMarkDeletes cfg s ops →
      ∀ x ∈ allocIds cfg s ops, s.lastId < x := by
  intro ops
  induction ops with
  | nil => intro s _ x hx; simp [allocIds] at hx
  | cons op rest ih =>
    intro s hn x hx
    obtain ⟨h1, h2⟩ := hn
    have hmono := step_lastId_mono cfg s op h1
    cases op with
    | opCreate t c now bOk wOk =>
      by_cases hv : memoBodyValid t c = true
      · simp only [allocIds, hv, if_true] at hx
        rcases List.mem_cons.mp hx with rfl | hx
        · omega
        · have := ih (step cfg s (.opCreate t c now bOk wOk)) h2 x hx
          omega
      · have hv2 : memoBodyValid t c = false := eq_false_of_ne_true hv
        simp only [allocIds, hv2, Bool.false_eq_true, if_false] at hx
        have := ih (step cfg s (.opCreate t c now bOk wOk)) h2 x hx
        omega
    | opUpdate id t c now bOk wOk =>
      simp only [allocIds] at hx
      have := ih (step cfg s (.opUpdate id t c now bOk wOk)) h2 x hx
      omega
    | opDelete id bOk wOk =>
      simp only [allocIds] at hx
      have := ih (step cfg s (.opDelete id bOk wOk)) h2 x hx
      omega
    | opList now =>
      simp only [allocIds] at hx
      have := ih (step cfg s (.opList now)) h2 x hx
      omega

/-- Along a trace without high-water-mark deletes, the allocated ids are
strictly increasing. -/
theorem allocIds_pairwise (cfg : Config) :
    ∀ (ops : List Op) (s : ServState), noMarkDeletes cfg s ops →
      (allocIds cfg s ops).Pairwise (· < ·) := by
  intro ops
  induction ops with
  | nil => intro s _; simp [allocIds]
  | cons op rest ih =>
    intro s hn
    obtain ⟨h1, h2⟩ := hn
    cases op with
    | opCreate t c now bOk wOk =>
      by_cases hv : memoBodyValid t c = true
      · simp only [allocIds, hv, if_true]
        refine List.Pairwise.cons ?_ (ih (step cfg s (.opCreate t c now bOk wOk)) h2)
        intro x hx
        have hgt := allocIds_gt cfg rest (step cfg s (.opCreate t c now bOk wOk)) h2 x hx
        have hl := step_create_lastId cfg s t c now bOk wOk hv
        omega
      · have hv2 : memoBodyValid t c = false := eq_false_of_ne_true hv
        simp only [allocIds, hv2, Bool.false_eq_true, if_false]
        exact ih (step cfg s (.opCreate t c now bOk wOk)) h2
    | opUpdate id t c now bOk wOk =>
      simp only [allocIds]
      exact ih (step cfg s (.opUpdate id t c now bOk wOk)) h2
    | opDelete id bOk wOk =>
      simp only [allocIds]
      exact ih (step cfg s (.opDelete id bOk wOk)) h2
    | opList now =>
      simp only [allocIds]
      exact ih (step cfg s (.opList now)) h2

/-- The ids of the returned created memos form a sublist of the allocated
ids: a create answers 201 only when its save succeeded, and then it returns
the memo carrying the id it allocated. -/
theorem createdMemos_ids_sublist (cfg : Config) :
    ∀ (ops : List Op) (s : ServState),
      ((createdMemos cfg s ops).map Memo.id).Sublist (allocIds cfg s ops) := by
  intro ops
  induction ops with
  | nil => intro s; simp [createdMemos, allocIds]
  | cons op rest ih =>
    intro s
    cases op with
    | opCreate t c now bOk wOk =>
      by_cases hv : memoBodyValid t c = true
      · cases wOk with
        | true =>
          have hp := postMemos_ok_eq cfg bOk t c now s hv
          have hstep : step cfg s (.opCreate t c now bOk true) = (postMemos cfg bOk true t c now s).1 := rfl
          simp only [createdMemos, allocIds, hv, if_true, hstep, hp, List.map_cons]
          exact List.Sublist.cons₂ _ (ih _)
        | false =>
          have hp := postMemos_write_fail cfg bOk t c now s hv
          have hstep : step cfg s (.opCreate t c now bOk false) = (postMemos cfg bOk false t c now s).1 := rfl
          simp only [createdMemos, allocIds, hv, if_true, hstep, hp]
          exact List.Sublist.cons _ (ih _)
      · have hv2 : memoBodyValid t c = false := eq_false_of_ne_true hv
        have hp := postMemos_invalid cfg bOk wOk t c now s hv2
        have hstep : step cfg s (.opCreate t c now bOk wOk) = (postMemos cfg bOk wOk t c now s).1 := rfl
        simp only [createdMemos, allocIds, hv2, Bool.false_eq_true, if_false, hstep, hp]
        exact ih _
    | opUpdate id t c now bOk wOk =>
      simp only [createdMemos, allocIds]
      exact ih _
    | opDelete id bOk wOk =>
      simp only [createdMemos, allocIds]
      exact ih _
    | opList now =>
      simp only [createdMemos, allocIds]
      exact ih _

/-- A trace of creates only contains no high-water-mark delete. -/
theorem noMarkDeletes_of_creates (cfg : Config) :
    ∀ (ops : List Op) (s : ServState), (∀ op ∈ ops, op.isCreate = true) →
      noMarkDeletes cfg s ops := by
  intro ops
  induction ops with
  | nil => intro s _; trivial
  | cons op rest ih =>
    intro s h
    have h1 := h op (List.mem_cons_self op rest)
    refine ⟨?_, ih (step cfg s op) fun op2 h2 => h op2 (List.mem_cons_of_mem _ h2)⟩
    cases op with
    | opCreate t c now bOk wOk => rfl
    | opUpdate id t c now bOk wOk => exact absurd h1 (by simp [Op.isCreate])
    | opDelete id bOk wOk => exact absurd h1 (by simp [Op.isCreate])
    | opList now => exact absurd h1 (by simp [Op.isCreate])

/-- Claim C1: getNextId returns lastId plus one and advances lastId to that
value, so along any trace free of successful deletes of the memo holding
the high-water mark the allocated ids are strictly increasing, and an id
removed by a delete while different from the high-water mark is never
allocated again for the life of the process; the one exception is that a
delete of the id equal to the current high-water mark decrements the mark
by one, so the very next allocation returns exactly that id. -/
theorem C1_allocator_spec :
    (∀ s : ServState, getNextId s = (s.lastId + 1, { s with lastId := s.lastId + 1 })) ∧
    (∀ (cfg : Config) (s : ServState) (ops : List Op), noMarkDeletes cfg s ops →
      (allocIds cfg s ops).Pairwise (· < ·)) ∧
    (∀ (cfg : Config) (s0 : ServState) (pre : List Op) (id : Int) (bOk : Bool)
        (post : List Op) (d : Memo) (rest : List Memo), inv [] s0 →
      removeFirst (fun m => m.id == id) (execOps cfg s0 pre).file = some (d, rest) →
      d.id ≠ (execOps cfg s0 pre).lastId →
      d.id ∉ allocIds cfg (step cfg (execOps cfg s0 pre) (.opDelete id bOk true)) post) ∧
    (∀ (cfg : Config) (s : ServState) (id : Int) (bOk : Bool) (d : Memo) (rest : List Memo),
      removeFirst (fun m => m.id == id) s.file = some (d, rest) →
      d.id = s.lastId →
      (step cfg s (.opDelete id bOk true)).lastId = s.lastId - 1 ∧
      (getNextId (step cfg s (.opDelete id bOk true))).1 = d.id) := by
  refine ⟨fun s => rfl, fun cfg s ops h => allocIds_pairwise cfg ops s h, ?_, ?_⟩
  · intro cfg s0 pre id bOk post d rest h0 hf hne
    obtain ⟨B2, _, h2⟩ := execOps_inv cfg pre s0 [] h0
    have hstep := inv_step cfg (execOps cfg s0 pre) (.opDelete id bOk true) B2 h2
    have hsb : stepBanned (execOps cfg s0 pre) (.opDelete id bOk true) = [d.id] := by
      simp [stepBanned, hf, hne]
    rw [hsb] at hstep
    have hdmem : d.id ∈ B2 ++ [d.id] := List.mem_append_right _ (List.mem_singleton.mpr rfl)
    exact banned_not_alloc cfg d.id post _ _ hstep hdmem
  · intro cfg s id bOk d rest hf heq
    constructor
    · show ((deleteMemosId cfg bOk true id s).1).lastId = s.lastId - 1
      rw [deleteMemosId_ok_eq cfg bOk id s d rest hf]
      simp [heq]
    · show ((deleteMemosId cfg bOk true id s).1).lastId + 1 = d.id
      rw [deleteMemosId_ok_eq cfg bOk id s d rest hf]
      simp [heq]

/-- Witness for the allocator claim: from an empty store, create twice
(ids 1 and 2); the trace of the two creates allocates strictly increasing
ids; deleting id 1 (not the mark) retires it for the rest of the process,
so a later create allocates 3 and not 1; deleting id 2 (the mark) drops
lastId to 1 and the next allocation returns 2 again. -/
theorem C1_allocator_spec_witness :
    ((allocIds cfgDefault (initState [])
        [.opCreate "a" "b" "t1" true true, .opCreate "c" "d" "t2" true true]).Pairwise
      (· < ·)) ∧
    ((1 : Int) ∉ allocIds cfgDefault
      (step cfgDefault
        (execOps cfgDefault (initState [])
          [.opCreate "a" "b" "t1" true true, .opCreate "c" "d" "t2" true true])
        (.opDelete 1 true true))
      [.opCreate "e" "f" "t3" true true]) ∧
    ((step cfgDefault
        (execOps cfgDefault (initState [])
          [.opCreate "a" "b" "t1" true true, .opCreate "c" "d" "t2" true true])
        (.opDelete 2 true true)).lastId = 1 ∧
      (getNextId (step cfgDefault
        (execOps cfgDefault (initState [])
          [.opCreate "a" "b" "t1" true true, .opCreate "c" "d" "t2" true true])
        (.opDelete 2 true true))).1 = 2) := by
  refine ⟨?_, ?_, ?_⟩
  · exact C1_allocator_spec.2.1 cfgDefault (initState [])
      [.opCreate "a" "b" "t1" true true, .opCreate "c" "d" "t2" true true]
      (noMarkDeletes_of_creates cfgDefault _ _ (by decide))
  · exact C1_allocator_spec.2.2.1 cfgDefault (initState [])
      [.opCreate "a" "b" "t1" true true, .opCreate "c" "d" "t2" true true]
      1 true [.opCreate "e" "f" "t3" true true]
      ⟨1, "a", "b", "t1", "t1"⟩ [⟨2, "c", "d", "t2", "t2"⟩]
      (by simp [inv, initState, initializeLastId]) rfl (by decide)
  · have h := C1_allocator_spec.2.2.2 cfgDefault
      (execOps cfgDefault (initState [])
        [.opCreate "a" "b" "t1" true true, .opCreate "c" "d" "t2" true true])
      2 true ⟨2, "c", "d", "t2", "t2"⟩ [⟨1, "a", "b", "t1", "t1"⟩] rfl rfl
    exact ⟨h.1, by rw [h.2]⟩

/-- Claim C3: the stored ids stay pairwise distinct across every create,
update and delete operation, both for a single step and along a whole
trace, and in particular the memos returned by any sequence of creates
carry pairwise distinct ids. -/
theorem C3_ids_distinct :
    (∀ (cfg : Config) (s : ServState) (op : Op) (B : List Int), inv B s →
      ((step cfg s op).file.map Memo.id).Nodup) ∧
    (∀ (cfg : Config) (s : ServState) (ops : List Op), inv [] s →
      ((execOps cfg s ops).file.map Memo.id).Nodup) ∧
    (∀ (cfg : Config) (s : ServState) (ops : List Op), (∀ op ∈ ops, op.isCreate = true) →
      (createdMemos cfg s ops).Pairwise (fun a b => a.id ≠ b.id)) := by
  refine ⟨?_, ?_, ?_⟩
  · intro cfg s op B h
    exact (inv_step cfg s op B h).1
  · intro cfg s ops h
    obtain ⟨B2, _, h2⟩ := execOps_inv cfg ops s [] h
    exact h2.1
  · intro cfg s ops h
    have hp := allocIds_pairwise cfg ops s (noMarkDeletes_of_creates cfg ops s h)
    have hs := createdMemos_ids_sublist cfg ops s
    have hmap : ((createdMemos cfg s ops).map Memo.id).Pairwise (· < ·) :=
      hp.sublist hs
    have := List.pairwise_map.mp hmap
    exact this.imp fun hlt => ne_of_lt hlt

/-- Witness for id distinctness: a concrete create, and a concrete
two-create trace, both from the empty store. -/
theorem C3_ids_distinct_witness :
    ((step cfgDefault (initState []) (.opCreate "a" "b" "t1" true true)).file.map
      Memo.id).Nodup ∧
    ((execOps cfgDefault (initState [])
        [.opCreate "a" "b" "t1" true true, .opCreate "c" "d" "t2" true true]).file.map
      Memo.id).Nodup ∧
    (createdMemos cfgDefault (initState [])
        [.opCreate "a" "b" "t1" true true, .opCreate "c" "d" "t2" true true]).Pairwise
      (fun a b => a.id ≠ b.id) := by
  refine ⟨?_, ?_, ?_⟩
  · exact C3_ids_distinct.1 cfgDefault (initState []) (.opCreate "a" "b" "t1" true true) []
      (by simp [inv, initState, initializeLastId])
  · exact C3_ids_distinct.2.1 cfgDefault (initState [])
      [.opCreate "a" "b" "t1" true true, .opCreate "c" "d" "t2" true true]
      (by simp [inv, initState, initializeLastId])
  · exact C3_ids_distinct.2.2 cfgDefault (initState [])
      [.opCreate "a" "b" "t1" true true, .opCreate "c" "d" "t2" true true]
      (by decide)

/-- Counterexample to claim C2: a backing file holding the JSON text [1] is
a well-formed JSON array whose single element is not Memo-shaped, yet
loadData returns it as a collection instead of failing with a CorruptStore
error. -/
theorem C2_load_counterexample :
    loadData (.json (.arr [.num 1])) = .ok [.num 1] ∧
    isMemoShaped (.num 1) = false :=
  ⟨rfl, rfl⟩

/-- Claim C2 as amended: loadData returns the current collection; a missing
backing file yields the empty collection (bootstrap, not an error); a file
whose content is not well-formed JSON fails with the CorruptStore error; a
file that parses to a non-array value fails with the distinct
invalid-format error; and a parsed array is returned as is, its elements
never checked for Memo shape. -/
theorem C2_load_amended :
    loadData .missing = .ok [] ∧
    loadData .invalidJson = .error .corruptStore ∧
    (∀ elems : List Json, loadData (.json (.arr elems)) = .ok elems) ∧
    (∀ v : Json, v.isArr = false → loadData (.json v) = .error .invalidFormat) := by
  refine ⟨rfl, rfl, fun elems => rfl, ?_⟩
  intro v hv
  cases v <;> first | rfl | simp [Json.isArr] at hv

/-- Witness for the amended load claim at a concrete non-array value. -/
theorem C2_load_amended_witness :
    (Json.num 1).isArr = false ∧
    loadData (.json (.num 1)) = .error .invalidFormat :=
  ⟨rfl, C2_load_amended.2.2.2 (.num 1) rfl⟩

/-- Claim C4: saving a collection and loading it back is the identity on
collections; the parsed file is exactly the serialized five-field array,
and deserializing it recovers every memo field for field. -/
theorem C4_roundtrip (c : List Memo) :
    loadData (writtenContent c) = .ok (c.map memoToJson) ∧
    decodeMemos (c.map memoToJson) = some c := by
  refine ⟨rfl, ?_⟩
  induction c with
  | nil => rfl
  | cons m ms ih =>
    have hm : memoOfJson (memoToJson m) = some m := rfl
    simp [decodeMemos, hm, ih]

/-- Inversion of a 201 answer of the create handler: the body passed the
schema, the write succeeded, the returned memo is the freshly built one and
the stored state is the extended collection with a cleared cache. -/
theorem postMemos_ok_inv {cfg : Config} {bOk wOk : Bool} {t c now : String}
    {s s2 : ServState} {m : Memo} (h : postMemos cfg bOk wOk t c now s = (s2, .ok m)) :
    memoBodyValid t c = true ∧ wOk = true ∧
    m = ⟨s.lastId + 1, jsTrim t, jsTrim c, now, now⟩ ∧
    s2.file = s.file ++ [m] ∧ s2.cache = none ∧ s2.cacheTime = none ∧
    s2.lastId = s.lastId + 1 := by
  by_cases hv : memoBodyValid t c = true
  · cases wOk with
    | true =>
      rw [postMemos_ok_eq cfg bOk t c now s hv] at h
      simp only [Prod.mk.injEq, Except.ok.injEq] at h
      obtain ⟨hs2, hm⟩ := h
      subst hs2
      subst hm
      exact ⟨hv, rfl, rfl, rfl, rfl, rfl, rfl⟩
    | false =>
      rw [postMemos_write_fail cfg bOk t c now s hv] at h
      simp at h
  · rw [postMemos_invalid cfg bOk wOk t c now s (eq_false_of_ne_true hv)] at h
    simp at h

/-- Inversion of a 200 answer of the update handler: the body passed the
schema, the write succeeded, some memo matched the id and was mutated in
place, and the stored state is the mutated collection with a cleared cache
and an unchanged lastId. -/
theorem putMemosId_ok_inv {cfg : Config} {bOk wOk : Bool} {id : Int} {t c now : String}
    {s s2 : ServState} {u : Memo} (h : putMemosId cfg bOk wOk id t c now s = (s2, .ok u)) :
    memoBodyValid t c = true ∧ wOk = true ∧
    ∃ l2, updateFirst (fun m => m.id == id)
        (fun m => { m with title := jsTrim t, content := jsTrim c, updatedAt := now })
        s.file = some (u, l2) ∧
      s2.file = l2 ∧ s2.cache = none ∧ s2.cacheTime = none ∧ s2.lastId = s.lastId := by
  by_cases hv : memoBodyValid t c = true
  · cases hf : updateFirst (fun m => m.id == id)
        (fun m => { m with title := jsTrim t, content := jsTrim c, updatedAt := now })
        s.file with
    | none =>
      rw [putMemosId_notFound cfg bOk wOk id t c now s hv hf] at h
      simp at h
    | some pr =>
      obtain ⟨u0, l2⟩ := pr
      cases wOk with
      | true =>
        rw [putMemosId_ok_eq cfg bOk id t c now s u0 l2 hv hf] at h
        simp only [Prod.mk.injEq, Except.ok.injEq] at h
        obtain ⟨hs2, hm⟩ := h
        subst hs2
        subst hm
        exact ⟨hv, rfl, ⟨l2, rfl, rfl, rfl, rfl, rfl⟩⟩
      | false =>
        rw [putMemosId_write_fail cfg bOk id t c now s u0 l2 hv hf] at h
        simp at h
  · rw [putMemosId_invalid cfg bOk wOk id t c now s (eq_false_of_ne_true hv)] at h
    simp at h

/-- Inversion of a 200 answer of the delete handler: the write succeeded,
some memo matched the id and was spliced out, and the stored state is the
reduced collection with a cleared cache. -/
theorem deleteMemosId_ok_inv {cfg : Config} {bOk wOk : Bool} {id : Int}
    {s s2 : ServState} {d : Memo} (h : deleteMemosId cfg bOk wOk id s = (s2, .ok d)) :
    wOk = true ∧
    ∃ l2, removeFirst (fun m => m.id == id) s.file = some (d, l2) ∧
      s2.file = l2 ∧ s2.cache = none ∧ s2.cacheTime = none := by
  cases hf : removeFirst (fun m => m.id == id) s.file with
  | none =>
    rw [deleteMemosId_notFound cfg bOk wOk id s hf] at h
    simp at h
  | some pr =>
    obtain ⟨d0, l2⟩ := pr
    cases wOk with
    | true =>
      rw [deleteMemosId_ok_eq cfg bOk id s d0 l2 hf] at h
      simp only [Prod.mk.injEq, Except.ok.injEq] at h
      obtain ⟨hs2, hm⟩ := h
      subst hs2
      subst hm
      exact ⟨rfl, ⟨l2, rfl, rfl, rfl, rfl⟩⟩
    | false =>
      rw [deleteMemosId_write_fail cfg bOk id s d0 l2 hf] at h
      simp at h

/-- Removing the first match from a duplicate-free collection removes its
id entirely. -/
theorem removeFirst_id_not_mem {p : Memo → Bool} {l l2 : List Memo} {d : Memo}
    (h : removeFirst p l = some (d, l2)) (hnd : (l.map Memo.id).Nodup) :
    d.id ∉ l2.map Memo.id := by
  obtain ⟨l₁, lr, hl, hl2, _, _⟩ := removeFirst_eq_some h
  subst hl
  subst hl2
  rw [List.map_append, List.map_cons] at hnd
  have := (List.nodup_cons.mp ((List.nodup_middle).mp hnd)).1
  rw [List.map_append]
  exact this

/-- Claim C5: immediately after any successful create, update or delete,
the cached snapshot and timestamp have been discarded by the successful
save, so a following list read returns the just-saved collection for any
clock value, before any cache expiry; and the saved collection reflects the
change (the created memo is appended, the updated memo is stored, the
deleted id is gone). -/
theorem C5_cache_freshness (cfg : Config) (nowMs : Nat) :
    (∀ (bOk wOk : Bool) (t c now : String) (s s2 : ServState) (m : Memo),
      postMemos cfg bOk wOk t c now s = (s2, .ok m) →
      s2.cache = none ∧ s2.cacheTime = none ∧ (getMemos cfg nowMs s2).1 = s2.file ∧
        s2.file = s.file ++ [m]) ∧
    (∀ (bOk wOk : Bool) (id : Int) (t c now : String) (s s2 : ServState) (u : Memo),
      putMemosId cfg bOk wOk id t c now s = (s2, .ok u) →
      s2.cache = none ∧ s2.cacheTime = none ∧ (getMemos cfg nowMs s2).1 = s2.file ∧
        u ∈ s2.file) ∧
    (∀ (bOk wOk : Bool) (id : Int) (s s2 : ServState) (d : Memo),
      deleteMemosId cfg bOk wOk id s = (s2, .ok d) →
      (s.file.map Memo.id).Nodup →
      s2.cache = none ∧ s2.cacheTime = none ∧ (getMemos cfg nowMs s2).1 = s2.file ∧
        d.id ∉ s2.file.map Memo.id) := by
  refine ⟨?_, ?_, ?_⟩
  · intro bOk wOk t c now s s2 m h
    obtain ⟨_, _, _, hfile, hc, hct, _⟩ := postMemos_ok_inv h
    exact ⟨hc, hct, loadDataWithCache_fst_of_none cfg nowMs s2 hc, hfile⟩
  · intro bOk wOk id t c now s s2 u h
    obtain ⟨_, _, l2, hf, hfile, hc, hct, _⟩ := putMemosId_ok_inv h
    obtain ⟨l₁, m0, lr, _, hl2, hu, _, _⟩ := updateFirst_eq_some hf
    refine ⟨hc, hct, loadDataWithCache_fst_of_none cfg nowMs s2 hc, ?_⟩
    rw [hfile, hl2, hu]
    exact List.mem_append.mpr (Or.inr (List.mem_cons_self _ lr))
  · intro bOk wOk id s s2 d h hnd
    obtain ⟨_, l2, hf, hfile, hc, hct⟩ := deleteMemosId_ok_inv h
    refine ⟨hc, hct, loadDataWithCache_fst_of_none cfg nowMs s2 hc, ?_⟩
    rw [hfile]
    exact removeFirst_id_not_mem hf hnd

/-- Witness for cache freshness: one concrete create, update and delete,
each from a one-element store, each checked right after the operation. -/
theorem C5_cache_freshness_witness :
    ((postMemos cfgDefault true true "a" "b" "t1" (initState [])).2 =
      .ok ⟨1, "a", "b", "t1", "t1"⟩) ∧
    ((postMemos cfgDefault true true "a" "b" "t1" (initState [])).1.cache = none ∧
      (getMemos cfgDefault 0 (postMemos cfgDefault true true "a" "b" "t1" (initState [])).1).1 =
        (postMemos cfgDefault true true "a" "b" "t1" (initState [])).1.file) ∧
    ((putMemosId cfgDefault true true 1 "x" "y" "t2"
        ⟨[⟨1, "a", "b", "t1", "t1"⟩], none, none, none, 1⟩).1.cache = none ∧
      (⟨1, "x", "y", "t1", "t2"⟩ : Memo) ∈
        (putMemosId cfgDefault true true 1 "x" "y" "t2"
          ⟨[⟨1, "a", "b", "t1", "t1"⟩], none, none, none, 1⟩).1.file) ∧
    ((deleteMemosId cfgDefault true true 1
        ⟨[⟨1, "a", "b", "t1", "t1"⟩], none, none, none, 1⟩).1.cache = none ∧
      (1 : Int) ∉
        (deleteMemosId cfgDefault true true 1
          ⟨[⟨1, "a", "b", "t1", "t1"⟩], none, none, none, 1⟩).1.file.map Memo.id) := by
  have h1 := (C5_cache_freshness cfgDefault 0).1 true true "a" "b" "t1" (initState [])
    (postMemos cfgDefault true true "a" "b" "t1" (initState [])).1
    ⟨1, "a", "b", "t1", "t1"⟩ rfl
  have h2 := (C5_cache_freshness cfgDefault 0).2.1 true true 1 "x" "y" "t2"
    ⟨[⟨1, "a", "b", "t1", "t1"⟩], none, none, none, 1⟩
    (putMemosId cfgDefault true true 1 "x" "y" "t2"
      ⟨[⟨1, "a", "b", "t1", "t1"⟩], none, none, none, 1⟩).1
    ⟨1, "x", "y", "t1", "t2"⟩ rfl
  have h3 := (C5_cache_freshness cfgDefault 0).2.2 true true 1
    ⟨[⟨1, "a", "b", "t1", "t1"⟩], none, none, none, 1⟩
    (deleteMemosId cfgDefault true true 1
      ⟨[⟨1, "a", "b", "t1", "t1"⟩], none, none, none, 1⟩).1
    ⟨1, "a", "b", "t1", "t1"⟩ rfl (by decide)
  refine ⟨rfl, ⟨h1.1, h1.2.2.1⟩, ⟨h2.1, ?_⟩, ⟨h3.1, ?_⟩⟩
  · have := h2.2.2.2
    simpa using this
  · have := h3.2.2.2
    simpa using this

/-- Claim C6: a successful update leaves the matched memo's id and
createdAt unchanged and every other memo of the collection untouched; the
stored updatedAt is the request timestamp, hence at least the previous
updatedAt whenever the clock has not moved backwards. -/
theorem C6_update_preserves_identity (cfg : Config) (bOk wOk : Bool) (id : Int)
    (t c now : String) (s s2 : ServState) (u : Memo)
    (h : putMemosId cfg bOk wOk id t c now s = (s2, .ok u)) :
    ∃ l₁ m lr, s.file = l₁ ++ m :: lr ∧ (m.id == id) = true ∧
      (∀ x ∈ l₁, (x.id == id) = false) ∧
      s2.file = l₁ ++ u :: lr ∧
      u.id = m.id ∧ u.createdAt = m.createdAt ∧ u.updatedAt = now ∧
      (m.updatedAt ≤ now → m.updatedAt ≤ u.updatedAt) := by
  obtain ⟨hv, hw, l2, hf, hfile, _, _, _⟩ := putMemosId_ok_inv h
  obtain ⟨l₁, m, lr, hsf, hl2, hu, hl₁, hm⟩ := updateFirst_eq_some hf
  refine ⟨l₁, m, lr, hsf, hm, hl₁, ?_, ?_, ?_, ?_, ?_⟩
  · rw [hfile, hl2, hu]
  · rw [hu]
  · rw [hu]
  · rw [hu]
  · intro hle
    rw [hu]
    exact hle

/-- Witness for update identity preservation: updating memo 1 of a
two-memo store replaces its title and content, stamps updatedAt, and keeps
id, createdAt and the second memo. -/
theorem C6_update_preserves_identity_witness :
    ∃ l₁ m lr,
      (⟨[⟨1, "a", "b", "t0", "t0"⟩, ⟨2, "c", "d", "t0", "t0"⟩], none, none, none, 2⟩ :
          ServState).file = l₁ ++ m :: lr ∧
      (m.id == (1 : Int)) = true ∧
      (∀ x ∈ l₁, (x.id == (1 : Int)) = false) ∧
      (putMemosId cfgDefault true true 1 "x" "y" "t5"
        (⟨[⟨1, "a", "b", "t0", "t0"⟩, ⟨2, "c", "d", "t0", "t0"⟩], none, none, none, 2⟩ :
          ServState)).1.file = l₁ ++ (⟨1, "x", "y", "t0", "t5"⟩ : Memo) :: lr ∧
      (⟨1, "x", "y", "t0", "t5"⟩ : Memo).id = m.id ∧
      (⟨1, "x", "y", "t0", "t5"⟩ : Memo).createdAt = m.createdAt ∧
      (⟨1, "x", "y", "t0", "t5"⟩ : Memo).updatedAt = "t5" ∧
      (m.updatedAt ≤ "t5" → m.updatedAt ≤ (⟨1, "x", "y", "t0", "t5"⟩ : Memo).updatedAt) :=
  C6_update_preserves_identity cfgDefault true true 1 "x" "y" "t5"
    ⟨[⟨1, "a", "b", "t0", "t0"⟩, ⟨2, "c", "d", "t0", "t0"⟩], none, none, none, 2⟩ _ _ rfl

set_option maxRecDepth 4000 in
/-- Claim C7: the empty title, a 201-character title and a title containing
an angle bracket are each rejected by the schema with a validation failure,
and an update of id 999999 on an empty collection answers not-found; in
every failing case the returned state is the input state, so the stored
collection is unchanged. -/
theorem C7_validation_boundary :
    (∀ (cfg : Config) (bOk wOk : Bool) (now : String) (s : ServState),
      postMemos cfg bOk wOk "" "x" now s = (s, .error .validationFailed)) ∧
    (∀ (cfg : Config) (bOk wOk : Bool) (now : String) (s : ServState),
      postMemos cfg bOk wOk title201 "x" now s = (s, .error .validationFailed)) ∧
    (∀ (cfg : Config) (bOk wOk : Bool) (now : String) (s : ServState),
      postMemos cfg bOk wOk "<b>" "x" now s = (s, .error .validationFailed)) ∧
    (∀ (cfg : Config) (bOk wOk : Bool) (now : String) (s : ServState), s.file = [] →
      putMemosId cfg bOk wOk 999999 "a" "b" now s = (s, .error .notFound)) := by
  refine ⟨?_, ?_, ?_, ?_⟩
  · intro cfg bOk wOk now s
    exact postMemos_invalid cfg bOk wOk "" "x" now s (by decide)
  · intro cfg bOk wOk now s
    exact postMemos_invalid cfg bOk wOk title201 "x" now s (by decide)
  · intro cfg bOk wOk now s
    exact postMemos_invalid cfg bOk wOk "<b>" "x" now s (by decide)
  · intro cfg bOk wOk now s h
    refine putMemosId_notFound cfg bOk wOk 999999 "a" "b" now s (by decide) ?_
    rw [h]
    rfl

/-- Witness for the validation boundary at the empty starting state. -/
theorem C7_validation_boundary_witness :
    postMemos cfgDefault true true "" "x" "t0" (initState []) =
      (initState [], .error .validationFailed) ∧
    postMemos cfgDefault true true title201 "x" "t0" (initState []) =
      (initState [], .error .validationFailed) ∧
    postMemos cfgDefault true true "<b>" "x" "t0" (initState []) =
      (initState [], .error .validationFailed) ∧
    putMemosId cfgDefault true true 999999 "a" "b" "t0" (initState []) =
      (initState [], .error .notFound) :=
  ⟨C7_validation_boundary.1 cfgDefault true true "t0" (initState []),
   C7_validation_boundary.2.1 cfgDefault true true "t0" (initState []),
   C7_validation_boundary.2.2.1 cfgDefault true true "t0" (initState []),
   C7_validation_boundary.2.2.2 cfgDefault true true "t0" (initState []) rfl⟩

/-- Counterexample to claim C8: the one-space title passes the schema (its
length is one and it has no angle bracket), so the create succeeds, yet the
stored and returned title is the empty string after trimming. -/
theorem C8_nonempty_counterexample :
    titleValid " " = true ∧
    (postMemos cfgDefault true true " " "x" "t0" (initState [])).2 =
      .ok ⟨1, "", "x", "t0", "t0"⟩ :=
  ⟨rfl, rfl⟩

/-- Claim C8 as amended: for every create or update that succeeds, the
submitted title and content were accepted by the schema, hence non-empty
before trimming and inside the length and character limits, and the stored
and returned values are exactly the trimmed submissions; since the schema
does not trim first, a whitespace-only submission is accepted and its
stored value is the empty string. -/
theorem C8_trimmed_values (cfg : Config) :
    (∀ (bOk wOk : Bool) (t c now : String) (s s2 : ServState) (m : Memo),
      postMemos cfg bOk wOk t c now s = (s2, .ok m) →
      titleValid t = true ∧ contentValid c = true ∧
      m.title = jsTrim t ∧ m.content = jsTrim c) ∧
    (∀ (bOk wOk : Bool) (id : Int) (t c now : String) (s s2 : ServState) (u : Memo),
      putMemosId cfg bOk wOk id t c now s = (s2, .ok u) →
      titleValid t = true ∧ contentValid c = true ∧
      u.title = jsTrim t ∧ u.content = jsTrim c) := by
  constructor
  · intro bOk wOk t c now s s2 m h
    obtain ⟨hv, _, hm, _⟩ := postMemos_ok_inv h
    rw [memoBodyValid, Bool.and_eq_true] at hv
    subst hm
    exact ⟨hv.1, hv.2, rfl, rfl⟩
  · intro bOk wOk id t c now s s2 u h
    obtain ⟨hv, _, l2, hf, _⟩ := putMemosId_ok_inv h
    rw [memoBodyValid, Bool.and_eq_true] at hv
    obtain ⟨l₁, m, lr, _, _, hu, _, _⟩ := updateFirst_eq_some hf
    subst hu
    exact ⟨hv.1, hv.2, rfl, rfl⟩

/-- Witness for the amended trimming claim at the one-space title. -/
theorem C8_trimmed_values_witness :
    titleValid " " = true ∧ contentValid "x" = true ∧
    (⟨1, "", "x", "t0", "t0"⟩ : Memo).title = jsTrim " " ∧
    (⟨1, "", "x", "t0", "t0"⟩ : Memo).content = jsTrim "x" :=
  (C8_trimmed_values cfgDefault).1 true true " " "x" "t0" (initState []) _ _ rfl

/-- Claim C9: with backup-on-save enabled, saveData first copies the
current backing file to the backup path when the copy succeeds, and a
failing copy never fails the owning save: the write still proceeds, the
new collection is stored, the save reports success, and the reported
outcome never depends on the backup outcome. -/
theorem C9_backup_never_blocks (cfg : Config) (bOk wOk : Bool) (s : ServState)
    (data : List Memo) (hb : cfg.backupEnabled = true) :
    (saveData cfg bOk true s data).1.file = data ∧
    (saveData cfg bOk true s data).2 = none ∧
    (bOk = true → (saveData cfg bOk true s data).1.backup = some s.file) ∧
    (saveData cfg bOk wOk s data).2 = (saveData cfg true wOk s data).2 := by
  refine ⟨?_, ?_, ?_, ?_⟩
  · rw [saveData_write_ok]
  · rw [saveData_write_ok]
  · intro hbo
    subst hbo
    rw [saveData_write_ok]
    simp [hb]
  · cases wOk with
    | true => rw [saveData_write_ok, saveData_write_ok]
    | false => rw [saveData_write_fail, saveData_write_fail]

/-- Witness for the backup claim: a failing backup copy on a one-memo
store still stores the new collection and reports success. -/
theorem C9_backup_never_blocks_witness :
    (saveData ⟨true, 5000, true⟩ false true (initState [⟨1, "a", "b", "t0", "t0"⟩]) []).1.file
      = [] ∧
    (saveData ⟨true, 5000, true⟩ false true (initState [⟨1, "a", "b", "t0", "t0"⟩]) []).2
      = none ∧
    (false = true →
      (saveData ⟨true, 5000, true⟩ false true (initState [⟨1, "a", "b", "t0", "t0"⟩]) []).1.backup
        = some (initState [⟨1, "a", "b", "t0", "t0"⟩]).file) ∧
    (saveData ⟨true, 5000, true⟩ false true (initState [⟨1, "a", "b", "t0", "t0"⟩]) []).2
      = (saveData ⟨true, 5000, true⟩ true true (initState [⟨1, "a", "b", "t0", "t0"⟩]) []).2 :=
  C9_backup_never_blocks ⟨true, 5000, true⟩ false true (initState [⟨1, "a", "b", "t0", "t0"⟩])
    [] rfl

/-- Claim C10: a failing write leaves the cached snapshot, the cache
timestamp and the stored file untouched and reports the write failure, so
a following cached read inside the configured duration still returns the
last successfully loaded collection rather than the collection whose save
failed. -/
theorem C10_failed_save_keeps_cache (cfg : Config) (bOk : Bool) (s : ServState)
    (data : List Memo) :
    (saveData cfg bOk false s data).1.cache = s.cache ∧
    (saveData cfg bOk false s data).1.cacheTime = s.cacheTime ∧
    (saveData cfg bOk false s data).1.file = s.file ∧
    (saveData cfg bOk false s data).2 = some .storeWriteFailed ∧
    (∀ (now t : Nat) (c : List Memo), s.cache = some c → s.cacheTime = some t →
      cfg.cacheEnabled = true → now - t < cfg.cacheDuration →
      (loadDataWithCache cfg now (saveData cfg bOk false s data).1).1 = c) := by
  have h1 : (saveData cfg bOk false s data).1.cache = s.cache := by
    rw [saveData_write_fail]
    cases hb : cfg.backupEnabled && bOk <;> simp [hb]
  have h2 : (saveData cfg bOk false s data).1.cacheTime = s.cacheTime := by
    rw [saveData_write_fail]
    cases hb : cfg.backupEnabled && bOk <;> simp [hb]
  have h3 : (saveData cfg bOk false s data).1.file = s.file := by
    rw [saveData_write_fail]
    cases hb : cfg.backupEnabled && bOk <;> simp [hb]
  refine ⟨h1, h2, h3, by rw [saveData_write_fail], ?_⟩
  intro now t c hc ht he hd
  exact loadDataWithCache_hit cfg now t _ c (h1.trans hc) (h2.trans ht) he hd

/-- Witness for the failed-save claim: a failed write of the emptied
collection keeps the one-memo snapshot, and a read one millisecond later
still returns it. -/
theorem C10_failed_save_keeps_cache_witness :
    (saveData cfgDefault true false
        ⟨[⟨1, "a", "b", "t0", "t0"⟩], none, some [⟨1, "a", "b", "t0", "t0"⟩], some 100, 1⟩
        []).1.cache = some [⟨1, "a", "b", "t0", "t0"⟩] ∧
    (saveData cfgDefault true false
        ⟨[⟨1, "a", "b", "t0", "t0"⟩], none, some [⟨1, "a", "b", "t0", "t0"⟩], some 100, 1⟩
        []).2 = some .storeWriteFailed ∧
    (loadDataWithCache cfgDefault 101 (saveData cfgDefault true false
        ⟨[⟨1, "a", "b", "t0", "t0"⟩], none, some [⟨1, "a", "b", "t0", "t0"⟩], some 100, 1⟩
        []).1).1 = [⟨1, "a", "b", "t0", "t0"⟩] := by
  have h := C10_failed_save_keeps_cache cfgDefault true
    ⟨[⟨1, "a", "b", "t0", "t0"⟩], none, some [⟨1, "a", "b", "t0", "t0"⟩], some 100, 1⟩ []
  exact ⟨h.1, h.2.2.2.1, h.2.2.2.2 101 100 [⟨1, "a", "b", "t0", "t0"⟩] rfl rfl rfl (by decide)⟩
